import Mathlib

/-!
# Verification of the quickwit indexing core

Shallow embedding of the merge policy (`merge_policy.rs`), the indexer actor
(`actors/indexer.rs`) and the pipeline retry backoff
(`actors/indexing_pipeline.rs`), together with proofs of the specification
claims about them.
-/

namespace Quickwit

/-- Modelled from the spec: `SplitMetadata` is defined in the
`quickwit-metastore` crate whose `split_metadata` module is not among the
sources; §3 of the spec describes it as `split_id`, `num_docs`, an optional
inclusive `time_range`, tags and derived attributes.  Only the fields that
the merge policy reads (`split_id`, `num_docs`, `time_range`) are modelled;
the inclusive `RangeInclusive<i64>` becomes a pair (start, end). -/
structure SplitMetadata where
  split_id : String
  num_docs : Nat
  time_range : Option (Int × Int)
deriving Repr, DecidableEq

/-- `StableMultitenantWithTimestampMergePolicy` configuration fields
(`merge_policy.rs`, lines 101-113). -/
structure StableMultitenantWithTimestampMergePolicy where
  min_level_num_docs : Nat
  merge_enabled : Bool
  merge_factor : Nat
  max_merge_factor : Nat
  split_num_docs_target : Nat
deriving Repr, DecidableEq

namespace StableMultitenantWithTimestampMergePolicy

/-- The `Default` impl of the policy (`merge_policy.rs`, lines 115-125). -/
def default : StableMultitenantWithTimestampMergePolicy :=
  { min_level_num_docs := 100000
    merge_enabled := true
    merge_factor := 10
    max_merge_factor := 12
    split_num_docs_target := 10000000 }

end StableMultitenantWithTimestampMergePolicy

/-- `remove_matching_items` (`merge_policy.rs`, lines 127-139): removes the
items satisfying the predicate from the vector (preserving the order of the
rest) and returns them.  The result pair is (items left in the vector,
matching items removed). -/
def remove_matching_items (p : α → Bool) : List α → List α × List α
  | [] => ([], [])
  | x :: xs =>
    let (rest, matching) := remove_matching_items p xs
    if p x then (rest, x :: matching) else (x :: rest, matching)

/-- The sort key comparison used by `merge_operations` (`merge_policy.rs`,
lines 213-219): Rust sorts by the key
`(time_range.map(|r| Reverse(*r.end())), num_docs)` in lexicographic order,
where `None < Some _` and `Reverse(a) ≤ Reverse(b) ↔ b ≤ a`. -/
def split_sort_le (a b : SplitMetadata) : Bool :=
  match a.time_range, b.time_range with
  | none, none => a.num_docs ≤ b.num_docs
  | none, some _ => true
  | some _, none => false
  | some ra, some rb =>
    if ra.2 = rb.2 then a.num_docs ≤ b.num_docs else rb.2 < ra.2

/-- Stable insertion of an element into a sorted list: `a` is placed before
the first element `b` with `le a b`. -/
def sort_insert (le : α → α → Bool) (a : α) : List α → List α
  | [] => [a]
  | b :: l => if le a b then a :: b :: l else b :: sort_insert le a l

/-- Model of Rust's stable `Vec::sort_by_key` (`merge_policy.rs`, line 213).
For a total preorder the output of a stable sort is uniquely determined by
the comparator, so stable insertion sort is an exact model of the stable
merge sort used by the Rust standard library. -/
def stable_sort (le : α → α → Bool) : List α → List α
  | [] => []
  | a :: l => sort_insert le a (stable_sort le l)

/-- The slice `splits[s..e]` of a vector, as a list. -/
def list_slice (l : List α) (s e : Nat) : List α :=
  (l.drop s).take (e - s)

/-- The loop body of `build_split_levels` (`merge_policy.rs`, lines 262-269):
walk the enumerated splits; when a split's `num_docs` reaches
`current_level_max_docs`, close the current level and open a new one with cap
`3 * num_docs`.  Arguments: enumerated splits left to scan, current level
start ordinal, current level doc cap, accumulated closed levels.  Returns the
closed levels and the start ordinal of the open level. -/
def levels_go : List (Nat × SplitMetadata) → Nat → Nat → List (Nat × Nat) →
    List (Nat × Nat) × Nat
  | [], start, _, acc => (acc, start)
  | (ord, s) :: rest, start, cur_max, acc =>
    if s.num_docs ≥ cur_max then
      levels_go rest ord (3 * s.num_docs) (acc ++ [(start, ord)])
    else
      levels_go rest start cur_max acc

/-- `build_split_levels` (`merge_policy.rs`, lines 246-273).  Levels are
half-open index ranges (start, end) into the sorted split vector.  The
`assert!` that all splits are below `split_num_docs_target` holds at the one
call site (mature splits were removed) and is not part of the function
result. -/
def build_split_levels (p : StableMultitenantWithTimestampMergePolicy)
    (splits : List SplitMetadata) : List (Nat × Nat) :=
  match splits with
  | [] => []
  | s0 :: _ =>
    let init_max := max (s0.num_docs * 3) p.min_level_num_docs
    let (acc, start) := levels_go splits.enum 0 init_max []
    acc ++ [(start, splits.length)]

/-- `MergeCandidateSize` (`merge_policy.rs`, lines 177-189). -/
inductive MergeCandidateSize where
  | TooSmall
  | ValidSplit
  | OneMoreSplitWouldBeTooBig
deriving Repr, DecidableEq

/-- `merge_candidate_size` (`merge_policy.rs`, lines 301-324). -/
def merge_candidate_size (p : StableMultitenantWithTimestampMergePolicy)
    (splits : List SplitMetadata) : MergeCandidateSize :=
  if splits.length ≤ 1 then .TooSmall
  else if splits.length ≥ p.max_merge_factor then .OneMoreSplitWouldBeTooBig
  else if (splits.map (·.num_docs)).sum ≥ p.split_num_docs_target then
    .OneMoreSplitWouldBeTooBig
  else if splits.length < p.merge_factor then .TooSmall
  else .ValidSplit

/-- The loop of `merge_candidate_from_level` (`merge_policy.rs`, lines
283-290): scan the ordinals of the level from right to left; before absorbing
the next split, stop if the current window `[start, e)` is already
`OneMoreSplitWouldBeTooBig`, otherwise extend the window to the ordinal. -/
def candidate_go (p : StableMultitenantWithTimestampMergePolicy)
    (splits : List SplitMetadata) (e : Nat) : List Nat → Nat → Nat
  | [], start => start
  | ord :: rest, start =>
    if merge_candidate_size p (list_slice splits start e) =
        .OneMoreSplitWouldBeTooBig then
      start
    else
      candidate_go p splits e rest ord

/-- `merge_candidate_from_level` (`merge_policy.rs`, lines 276-297).  Returns
the merge window (start, end) within the level, or `none` if the window is
still too small. -/
def merge_candidate_from_level (p : StableMultitenantWithTimestampMergePolicy)
    (splits : List SplitMetadata) (s e : Nat) : Option (Nat × Nat) :=
  let start := candidate_go p splits e ((List.range' s (e - s)).reverse) e
  if merge_candidate_size p (list_slice splits start e) = .TooSmall then
    none
  else
    some (start, e)

/-- The level loop of `merge_operations` (`merge_policy.rs`, lines 224-234):
levels are processed in reverse order; a successful candidate is drained from
the vector and pushed as one merge operation.  A `MergeOperation` is modelled
by its list of splits; its `merge_split_id` comes from the external ULID
generator `new_split_id()` and plays no role in the logic. -/
def merge_ops_go (p : StableMultitenantWithTimestampMergePolicy) :
    List (Nat × Nat) → List SplitMetadata → List (List SplitMetadata) →
    List SplitMetadata × List (List SplitMetadata)
  | [], splits, ops => (splits, ops)
  | (s, e) :: rest_levels, splits, ops =>
    match merge_candidate_from_level p splits s e with
    | some (cs, ce) =>
      merge_ops_go p rest_levels (splits.take cs ++ splits.drop ce)
        (ops ++ [list_slice splits cs ce])
    | none => merge_ops_go p rest_levels splits ops

/-- `is_mature_for_merge` (`merge_policy.rs`, lines 193-201): a split is
mature iff merging is disabled or `num_docs ≥ split_num_docs_target`. -/
def is_mature_for_merge (p : StableMultitenantWithTimestampMergePolicy)
    (split : SplitMetadata) : Bool :=
  if !p.merge_enabled then true
  else decide (split.num_docs ≥ p.split_num_docs_target)

/-- `merge_operations` (`merge_policy.rs`, lines 203-237).  Returns the pair
(splits left in the vector after the call, merge operations).  Mirrors the
source: early return when merging is disabled or fewer than 2 splits; mature
splits are isolated, the rest is stably sorted most recent first, grouped
into levels, the levels are scanned in reverse for candidates, and the mature
splits are re-appended at the end. -/
def merge_operations (p : StableMultitenantWithTimestampMergePolicy)
    (splits : List SplitMetadata) :
    List SplitMetadata × List (List SplitMetadata) :=
  if ¬ p.merge_enabled ∨ splits.length < 2 then (splits, [])
  else
    let (rest, mature) := remove_matching_items (is_mature_for_merge p) splits
    let sorted := stable_sort split_sort_le rest
    let (left, ops) := merge_ops_go p (build_split_levels p sorted).reverse sorted []
    (left ++ mature, ops)

/-- `MergePolicy::operations` for the stable multitenant policy
(`merge_policy.rs`, lines 157-170): delegates to `merge_operations`; the
`debug_assert_eq!` there states exactly the partition property proved below.
Result: (splits left in the vector, merge operations). -/
def operations (p : StableMultitenantWithTimestampMergePolicy)
    (splits : List SplitMetadata) :
    List SplitMetadata × List (List SplitMetadata) :=
  merge_operations p splits

/-- The `while level_end_doc < split_num_docs_target` loop of
`case_levels_given_growth_factor` (`merge_policy.rs`, lines 332-336),
with an explicit fuel argument for structural termination.  The source
asserts `min_level_num_docs > 0` and a growth factor of at least 2
(`merge_factor > 1`; the worst case passes the literal 3), so the loop
multiplies `e ≥ 1` by at least 2 per iteration and runs at most
`log2 target + 1 ≤ target` times; any fuel of at least `target` is
therefore equivalent to the source's unbounded loop. -/
def case_levels_loop (growth target : Nat) : Nat → Nat → List Nat
  | 0, _ => []
  | fuel + 1, e =>
    if e < target then e :: case_levels_loop growth target fuel (e * growth)
    else []

/-- `case_levels_given_growth_factor` (`merge_policy.rs`, lines 326-339):
`vec![1]`, then every `level_end_doc` visited by the loop, then
`split_num_docs_target`. -/
def case_levels_given_growth_factor
    (p : StableMultitenantWithTimestampMergePolicy) (growth : Nat) : List Nat :=
  1 :: (case_levels_loop growth p.split_num_docs_target p.split_num_docs_target
          p.min_level_num_docs ++ [p.split_num_docs_target])

/-- `max_num_splits_knowning_levels` (`merge_policy.rs`, lines 351-375).
The source's `levels.split_first().unwrap()` panics on an empty level list;
both call sites pass a list starting with `1`, so the `[]` branch is
unreachable and modelled as `0`. -/
def max_num_splits_knowning_levels
    (p : StableMultitenantWithTimestampMergePolicy) :
    Nat → List Nat → Bool → Nat
  | _, [], _ => 0
  | num_docs, head :: tail, sorted =>
    if num_docs = 0 then 0
    else if num_docs < head then 0
    else
      let first_level_min_saturation_docs :=
        if sorted then head * (p.merge_factor - 1)
        else head + (p.merge_factor - 2)
      if tail.isEmpty ∨ num_docs ≤ first_level_min_saturation_docs then
        (num_docs + head - 1) / head
      else
        p.merge_factor - 1 +
          max_num_splits_knowning_levels p
            (num_docs - first_level_min_saturation_docs) tail sorted

/-- `max_num_splits_ideal_case` (`merge_policy.rs`, lines 341-344). -/
def max_num_splits_ideal_case (p : StableMultitenantWithTimestampMergePolicy)
    (num_docs : Nat) : Nat :=
  max_num_splits_knowning_levels p num_docs
    (case_levels_given_growth_factor p p.merge_factor) true

/-- `max_num_splits_worst_case` (`merge_policy.rs`, lines 346-349). -/
def max_num_splits_worst_case (p : StableMultitenantWithTimestampMergePolicy)
    (num_docs : Nat) : Nat :=
  max_num_splits_knowning_levels p num_docs
    (case_levels_given_growth_factor p 3) false

/-- `IndexingPipeline::wait_duration_before_retry`
(`actors/indexing_pipeline.rs`, lines 468-472), in seconds.
`retry_count` is a `usize` cast with `as u32` (truncation modulo `2^32`),
then incremented in `u32` (wrap-around on 2^32 - 1, release semantics),
capped at 31, and `2^max_power` seconds is capped at
`MAX_RETRY_DELAY = 600` seconds (line 49). -/
def wait_duration_before_retry (retry_count : Nat) : Nat :=
  let max_power := min ((retry_count % 2 ^ 32 + 1) % 2 ^ 32) 31
  min (2 ^ max_power) 600

/-- The fixture of the merge-policy boundary tests (`merge_policy.rs`,
`create_splits`): `n` splits of equal `num_docs` sharing one timestamp
range, so that the stable sort keeps their order. -/
def same_size_splits (n : Nat) : List SplitMetadata :=
  (List.range n).map (fun i =>
    { split_id := toString i, num_docs := 100,
      time_range := some (1630563067, 1630564067) })

/-- Modelled from the spec: `SourceCheckpointDelta` lives in the
`quickwit-metastore` crate's `checkpoint` module, which is not among the
sources.  §3 of the spec describes it as a half-open offset range
`[from, to)` whose `extend(other)` succeeds only when `other`'s start equals
the current end; the default value is the empty delta. -/
structure SourceCheckpointDelta where
  range_opt : Option (Nat × Nat)
deriving Repr, DecidableEq

/-- Modelled from the spec: `extend` enforces gaplessness (§3, §8 of the
spec: "`extend` fails iff the incoming start ≠ current end"); extending the
empty delta always succeeds, and extending by the empty delta is a no-op. -/
def SourceCheckpointDelta.extend :
    SourceCheckpointDelta → SourceCheckpointDelta → Option SourceCheckpointDelta
  | ⟨none⟩, d => some d
  | ⟨some r⟩, ⟨none⟩ => some ⟨some r⟩
  | ⟨some (f, t)⟩, ⟨some (f2, t2)⟩ =>
    if f2 = t then some ⟨some (f, t2)⟩ else none

/-- Modelled from the spec: a `PublishLock` (§3 of the spec) is a shared
token with two observable states, *alive* and *dead*; `is_dead()` is the
non-blocking observation and `acquire()` fails iff the lock is dead.  The
indexer never mutates a lock, so its state is a plain field here. -/
structure PublishLock where
  id : String
  dead : Bool
deriving Repr, DecidableEq

/-- The `split_attrs` counters of an `IndexedSplit` that the indexer updates
(`actors/indexer.rs`, lines 280-294).  The tantivy index writer and the
scratch directory are external and not modelled. -/
structure IndexedSplit where
  partition_id : Nat
  num_docs : Nat
  uncompressed_docs_size_in_bytes : Nat
  time_range : Option (Int × Int)
deriving Repr, DecidableEq

/-- `PrepareDocumentOutcome` (`actors/indexer.rs`, lines 108-116).  The
parsed tantivy `Document` payload is external and not modelled; only the
data the indexer state machine reads (timestamp, partition) is kept. -/
inductive PrepareDocumentOutcome where
  | ParsingError
  | MissingField
  | Document (timestamp_opt : Option Int) (partition : Nat)

/-- `IndexerCounters` (`actors/indexer.rs`, lines 54-81). -/
structure IndexerCounters where
  num_parse_errors : Nat
  num_missing_fields : Nat
  num_valid_docs : Nat
  num_splits_emitted : Nat
  num_split_batches_emitted : Nat
  overall_num_bytes : Nat
  num_docs_in_workbench : Nat
deriving Repr, DecidableEq

/-- The `Default` value of `IndexerCounters`. -/
def IndexerCounters.default : IndexerCounters :=
  { num_parse_errors := 0, num_missing_fields := 0, num_valid_docs := 0
    num_splits_emitted := 0, num_split_batches_emitted := 0
    overall_num_bytes := 0, num_docs_in_workbench := 0 }

/-- `IndexerCounters::num_processed_docs` (`actors/indexer.rs`, lines
85-87). -/
def IndexerCounters.num_processed_docs (c : IndexerCounters) : Nat :=
  c.num_valid_docs + c.num_parse_errors + c.num_missing_fields

/-- `RawDocBatch`: a batch of raw JSON document strings plus a source
checkpoint delta (spec §3; consumed in `actors/indexer.rs`, lines
239-299). -/
structure RawDocBatch where
  docs : List String
  checkpoint_delta : SourceCheckpointDelta

/-- `IndexingWorkbench` (`actors/indexer.rs`, lines 303-313).  The
`FnvHashMap<u64, IndexedSplit>` becomes an association list keyed by
partition id; `date_of_birth` (wall-clock) is not modelled.  The `Ulid`
workbench id becomes a `Nat` drawn from a fresh counter. -/
structure IndexingWorkbench where
  workbench_id : Nat
  indexed_splits : List (Nat × IndexedSplit)
  checkpoint_delta : SourceCheckpointDelta
  publish_lock : PublishLock

/-- The fields of `IndexerState` (`actors/indexer.rs`, lines 97-106) that
the state machine reads.  `doc_mapper`, schema and index settings belong to
the external `quickwit-doc-mapper`/tantivy crates; their composite effect,
`prepare_document` (lines 197-237), is modelled as an abstract
classification of each raw JSON string. -/
structure IndexerState where
  prepare_document : String → PrepareDocumentOutcome
  publish_lock : PublishLock
  split_num_docs_target : Nat

/-- `record_timestamp` (`actors/indexer.rs`, lines 362-370): fold a
timestamp into the inclusive time range hull. -/
def record_timestamp (timestamp : Int) :
    Option (Int × Int) → Option (Int × Int)
  | some (s, e) => some (min timestamp s, max timestamp e)
  | none => some (timestamp, timestamp)

/-- Lookup of `splits.entry(partition_id)` in the association list. -/
def find_split (splits : List (Nat × IndexedSplit)) (partition : Nat) :
    Option IndexedSplit :=
  (splits.find? (fun kv => kv.1 = partition)).map (fun kv => kv.2)

/-- Store back a split under its partition key: replace the existing entry
or append a fresh one (`get_or_create_indexed_split`,
`actors/indexer.rs`, lines 141-154). -/
def upsert_split : List (Nat × IndexedSplit) → Nat → IndexedSplit →
    List (Nat × IndexedSplit)
  | [], partition, split => [(partition, split)]
  | (q, t) :: rest, partition, split =>
    if q = partition then (partition, split) :: rest
    else (q, t) :: upsert_split rest partition split

/-- A freshly created `IndexedSplit` (`create_indexed_split`,
`actors/indexer.rs`, lines 119-139): zero documents, zero bytes, no time
range. -/
def new_indexed_split (partition : Nat) : IndexedSplit :=
  { partition_id := partition, num_docs := 0,
    uncompressed_docs_size_in_bytes := 0, time_range := none }

/-- The per-document body of the batch loop (`actors/indexer.rs`, lines
261-297): add the document's byte length to `overall_num_bytes`
unconditionally, then dispatch on `prepare_document`.  A valid document
updates its partition's split and bumps `num_docs_in_workbench` and
`num_valid_docs`. -/
def process_doc (st : IndexerState)
    (acc : List (Nat × IndexedSplit) × IndexerCounters) (doc_json : String) :
    List (Nat × IndexedSplit) × IndexerCounters :=
  let (splits, counters) := acc
  let doc_json_num_bytes := doc_json.utf8ByteSize
  let counters :=
    { counters with
      overall_num_bytes := counters.overall_num_bytes + doc_json_num_bytes }
  match st.prepare_document doc_json with
  | .ParsingError =>
    (splits, { counters with num_parse_errors := counters.num_parse_errors + 1 })
  | .MissingField =>
    (splits,
     { counters with num_missing_fields := counters.num_missing_fields + 1 })
  | .Document timestamp_opt partition =>
    let split :=
      match find_split splits partition with
      | some split => split
      | none => new_indexed_split partition
    let split :=
      { split with
        uncompressed_docs_size_in_bytes :=
          split.uncompressed_docs_size_in_bytes + doc_json_num_bytes
        num_docs := split.num_docs + 1
        time_range :=
          match timestamp_opt with
          | some timestamp => record_timestamp timestamp split.time_range
          | none => split.time_range }
    (upsert_split splits partition split,
     { counters with
       num_docs_in_workbench := counters.num_docs_in_workbench + 1
       num_valid_docs := counters.num_valid_docs + 1 })

/-- `IndexerState::process_batch` (`actors/indexer.rs`, lines 239-299).
`fresh_id` models the `Ulid::new()` drawn by `create_workbench` when no
workbench exists.  Returns `none` when the checkpoint extension fails (the
batch error is surfaced to the actor runtime); otherwise the new workbench
option and counters.  A dead publish lock drops the batch before the
checkpoint is extended and before any counter is touched. -/
def IndexerState.process_batch (st : IndexerState) (fresh_id : Nat)
    (batch : RawDocBatch) (wb_opt : Option IndexingWorkbench)
    (counters : IndexerCounters) :
    Option (Option IndexingWorkbench × IndexerCounters) :=
  let wb :=
    match wb_opt with
    | some wb => wb
    | none =>
      { workbench_id := fresh_id, indexed_splits := []
        checkpoint_delta := ⟨none⟩, publish_lock := st.publish_lock }
  if wb.publish_lock.dead then
    some (some wb, counters)
  else
    match wb.checkpoint_delta.extend batch.checkpoint_delta with
    | none => none
    | some new_delta =>
      let (splits, counters) :=
        batch.docs.foldl (process_doc st) (wb.indexed_splits, counters)
      some (some { wb with checkpoint_delta := new_delta,
                           indexed_splits := splits },
            counters)

/-- `IndexedSplitBatch` as sent to the packager (`actors/indexer.rs`, lines
548-557). -/
structure IndexedSplitBatch where
  splits : List IndexedSplit
  checkpoint_delta : Option SourceCheckpointDelta
  publish_lock : PublishLock
deriving Repr, DecidableEq

/-- The `Indexer` actor state (`actors/indexer.rs`, lines 315-321).
`next_workbench_id` models the fresh `Ulid` generator; the packager mailbox
and the metastore handle are replaced by the effect lists a step returns. -/
structure Indexer where
  indexer_state : IndexerState
  indexing_workbench_opt : Option IndexingWorkbench
  counters : IndexerCounters
  next_workbench_id : Nat

/-- `Indexer::send_to_packager` (`actors/indexer.rs`, lines 498-562).
Result: (new actor state, split batches sent to the packager,
`publish_splits` calls made on the metastore — each call carrying empty
split lists and the given checkpoint delta).  With no workbench the flush is
a no-op; with a split-less workbench the checkpoint is published only when
the publish lock can be acquired (i.e. is alive); otherwise the splits,
delta and lock go downstream and the emission counters are updated. -/
def Indexer.send_to_packager (ind : Indexer) :
    Indexer × List IndexedSplitBatch × List SourceCheckpointDelta :=
  match ind.indexing_workbench_opt with
  | none => (ind, [], [])
  | some wb =>
    let ind1 := { ind with indexing_workbench_opt := none }
    let splits := wb.indexed_splits.map (fun kv => kv.2)
    if splits.isEmpty then
      if wb.publish_lock.dead then (ind1, [], [])
      else (ind1, [], [wb.checkpoint_delta])
    else
      ({ ind1 with
         counters :=
           { ind1.counters with
             num_docs_in_workbench := 0
             num_splits_emitted :=
               ind1.counters.num_splits_emitted + splits.length
             num_split_batches_emitted :=
               ind1.counters.num_split_batches_emitted + 1 } },
       [{ splits := splits, checkpoint_delta := some wb.checkpoint_delta,
          publish_lock := wb.publish_lock }],
       [])

/-- `Handler<NewPublishLock>` (`actors/indexer.rs`, lines 405-419): drop the
current workbench unconditionally and install the new lock. -/
def Indexer.handle_new_publish_lock (ind : Indexer) (lock : PublishLock) :
    Indexer :=
  { ind with
    indexing_workbench_opt := none
    indexer_state := { ind.indexer_state with publish_lock := lock } }

/-- `Handler<CommitTimeout>` (`actors/indexer.rs`, lines 372-390): a timeout
for a different workbench id is ignored; otherwise flush (note that with no
current workbench `send_to_packager` is still called and no-ops). -/
def Indexer.handle_commit_timeout (ind : Indexer) (workbench_id : Nat) :
    Indexer × List IndexedSplitBatch × List SourceCheckpointDelta :=
  match ind.indexing_workbench_opt with
  | some wb =>
    if wb.workbench_id ≠ workbench_id then (ind, [], [])
    else ind.send_to_packager
  | none => ind.send_to_packager

/-- `Indexer::process_batch` (`actors/indexer.rs`, lines 473-495): delegate
to the state-level `process_batch`, then flush with trigger `NumDocsLimit`
when `num_docs_in_workbench` reached `split_num_docs_target`.  The fresh
workbench id counter advances when a workbench was created. -/
def Indexer.handle_batch (ind : Indexer) (batch : RawDocBatch) :
    Option (Indexer × List IndexedSplitBatch × List SourceCheckpointDelta) :=
  match ind.indexer_state.process_batch ind.next_workbench_id batch
      ind.indexing_workbench_opt ind.counters with
  | none => none
  | some (wb_opt, counters) =>
    let created := ind.indexing_workbench_opt.isNone
    let ind1 :=
      { ind with
        indexing_workbench_opt := wb_opt
        counters := counters
        next_workbench_id :=
          if created then ind.next_workbench_id + 1
          else ind.next_workbench_id }
    if counters.num_docs_in_workbench ≥ ind.indexer_state.split_num_docs_target
    then some ind1.send_to_packager
    else some (ind1, [], [])

/-- The messages the indexer actor reacts to: `RawDocBatch`,
`CommitTimeout`, `NewPublishLock`, and a graceful exit (`finalize` with
`Quit`/`Success`, `actors/indexer.rs`, lines 343-359, which flushes with
trigger `NoMoreDocs`; other exit statuses drop the workbench without a
flush and are not events of the state machine). -/
inductive IndexerEvent where
  | batch (b : RawDocBatch)
  | commit_timeout (workbench_id : Nat)
  | new_publish_lock (lock : PublishLock)
  | quit

/-- One step of the indexer actor on one event.  Returns `none` when the
event makes the actor fail (checkpoint gap). -/
def Indexer.step (ind : Indexer) :
    IndexerEvent →
    Option (Indexer × List IndexedSplitBatch × List SourceCheckpointDelta)
  | .batch b => ind.handle_batch b
  | .commit_timeout workbench_id => some (ind.handle_commit_timeout workbench_id)
  | .new_publish_lock lock => some (ind.handle_new_publish_lock lock, [], [])
  | .quit => some ind.send_to_packager

/-- Run the indexer over a list of events, accumulating the emitted split
batches and the metastore publish calls. -/
def Indexer.run (ind : Indexer) :
    List IndexerEvent →
    Option (Indexer × List IndexedSplitBatch × List SourceCheckpointDelta)
  | [] => some (ind, [], [])
  | ev :: evs =>
    match ind.step ev with
    | none => none
    | some (ind1, batches, calls) =>
      match ind1.run evs with
      | none => none
      | some (ind2, batches2, calls2) =>
        some (ind2, batches ++ batches2, calls ++ calls2)

/-- Total byte size of the documents of one batch. -/
def batch_num_bytes (b : RawDocBatch) : Nat :=
  (b.docs.map String.utf8ByteSize).sum

/-- An event is free of live publish-lock rotations: every
`NewPublishLock` it may carry holds a dead lock. -/
def no_live_lock_event : IndexerEvent → Prop
  | .new_publish_lock lock => lock.dead = true
  | _ => True

/-- A concrete document classifier for concrete runs: the string `"v"`
parses into a valid document of partition 0 with no timestamp; anything
else is a parsing error (like the literal `"{"` of the spec's test
scenarios). -/
def test_prep : String → PrepareDocumentOutcome := fun s =>
  if s = "v" then .Document none 0 else .ParsingError

def live_lock : PublishLock := ⟨"live-lock", false⟩

def dead_lock : PublishLock := ⟨"dead-lock", true⟩

/-- `Indexer::new` (`actors/indexer.rs`, lines 429-471): no workbench,
default counters; the doc mapper and the initial publish lock are
parameters. -/
def fresh_indexer (prep : String → PrepareDocumentOutcome)
    (lock : PublishLock) (target : Nat) : Indexer :=
  { indexer_state :=
      { prepare_document := prep, publish_lock := lock,
        split_num_docs_target := target }
    indexing_workbench_opt := none
    counters := IndexerCounters.default
    next_workbench_id := 0 }

/-- Concrete run exhibiting a flush that does not reset
`num_docs_in_workbench`: one valid document, then a publish-lock rotation
(which discards the workbench but keeps the counter), then one invalid
document (a split-less workbench with a non-empty checkpoint), then the
commit timeout of that workbench. -/
def c6_events : List IndexerEvent :=
  [.batch ⟨["v"], ⟨some (0, 1)⟩⟩,
   .new_publish_lock ⟨"rotated-lock", false⟩,
   .batch ⟨["x"], ⟨some (1, 2)⟩⟩,
   .commit_timeout 1]

/-- A workbench holding one split with one document. -/
def one_split_workbench : IndexingWorkbench :=
  { workbench_id := 5
    indexed_splits := [(0, ⟨0, 1, 1, none⟩)]
    checkpoint_delta := ⟨some (0, 1)⟩
    publish_lock := live_lock }

/-- An indexer whose current workbench holds one split and whose
`num_docs_in_workbench` is 1. -/
def one_split_indexer : Indexer :=
  { indexer_state := ⟨test_prep, live_lock, 10⟩
    indexing_workbench_opt := some one_split_workbench
    counters := { IndexerCounters.default with num_docs_in_workbench := 1 }
    next_workbench_id := 6 }

/-- A workbench created under a dead publish lock: it never accumulated a
split. -/
def dead_workbench : IndexingWorkbench :=
  { workbench_id := 0, indexed_splits := []
    checkpoint_delta := ⟨none⟩, publish_lock := dead_lock }

/-- An indexer whose current workbench carries a dead publish lock. -/
def dead_wb_indexer : Indexer :=
  { indexer_state := ⟨test_prep, dead_lock, 10⟩
    indexing_workbench_opt := some dead_workbench
    counters := IndexerCounters.default
    next_workbench_id := 1 }

/-! ## Supporting lemmas on the merge-policy embedding -/

theorem remove_matching_items_eq (p : α → Bool) (l : List α) :
    remove_matching_items p l =
      (l.filter (fun x => !p x), l.filter p) := by
  induction l with
  | nil => rfl
  | cons x xs ih =>
    simp only [remove_matching_items, ih]
    cases h : p x <;> simp [List.filter_cons, h]

theorem sort_insert_perm (le : α → α → Bool) (a : α) (l : List α) :
    (sort_insert le a l).Perm (a :: l) := by
  induction l with
  | nil => exact List.Perm.refl _
  | cons b l ih =>
    simp only [sort_insert]
    split
    · exact List.Perm.refl _
    · exact (ih.cons b).trans (List.Perm.swap a b l)

theorem stable_sort_perm (le : α → α → Bool) (l : List α) :
    (stable_sort le l).Perm l := by
  induction l with
  | nil => exact List.Perm.refl _
  | cons a l ih =>
    exact (sort_insert_perm le a (stable_sort le l)).trans (ih.cons a)

theorem drain_length (l : List α) {cs ce : Nat} (h : cs ≤ ce) :
    (l.take cs ++ l.drop ce).length + (list_slice l cs ce).length =
      l.length := by
  simp only [list_slice, List.length_append, List.length_take,
    List.length_drop]
  omega

theorem candidate_go_le (p : StableMultitenantWithTimestampMergePolicy)
    (splits : List SplitMetadata) (e : Nat) :
    ∀ (ords : List Nat) (start : Nat), (∀ o ∈ ords, o ≤ e) → start ≤ e →
      candidate_go p splits e ords start ≤ e := by
  intro ords
  induction ords with
  | nil => intro start _ h; simpa [candidate_go] using h
  | cons o rest ih =>
    intro start ho hs
    simp only [candidate_go]
    split
    · exact hs
    · exact ih o (fun x hx => ho x (List.mem_cons_of_mem _ hx))
        (ho o (List.mem_cons_self _ _))

theorem merge_candidate_le {p : StableMultitenantWithTimestampMergePolicy}
    {splits : List SplitMetadata} {s e cs ce : Nat}
    (h : merge_candidate_from_level p splits s e = some (cs, ce)) :
    cs ≤ ce := by
  have hle : candidate_go p splits e ((List.range' s (e - s)).reverse) e ≤ e :=
    candidate_go_le p splits e _ e
      (by
        intro o homem
        rw [List.mem_reverse, List.mem_range'_1] at homem
        omega)
      le_rfl
  simp only [merge_candidate_from_level] at h
  split at h
  · exact absurd h (by simp)
  · simp only [Option.some.injEq, Prod.mk.injEq] at h
    omega

theorem merge_ops_go_conserve (p : StableMultitenantWithTimestampMergePolicy) :
    ∀ (levels : List (Nat × Nat)) (splits : List SplitMetadata)
      (ops : List (List SplitMetadata)),
      ((merge_ops_go p levels splits ops).1).length +
          (((merge_ops_go p levels splits ops).2).map List.length).sum =
        splits.length + ((ops.map List.length)).sum := by
  intro levels
  induction levels with
  | nil => intro splits ops; simp [merge_ops_go]
  | cons lv rest ih =>
    intro splits ops
    obtain ⟨s, e⟩ := lv
    simp only [merge_ops_go]
    cases h : merge_candidate_from_level p splits s e with
    | none => exact ih splits ops
    | some c =>
      obtain ⟨cs, ce⟩ := c
      dsimp only
      have hrec := ih (splits.take cs ++ splits.drop ce)
        (ops ++ [list_slice splits cs ce])
      have hd := drain_length splits (merge_candidate_le h)
      simp only [List.map_append, List.sum_append, List.map_cons,
        List.map_nil, List.sum_cons, List.sum_nil] at hrec
      omega

theorem merge_ops_go_mem (p : StableMultitenantWithTimestampMergePolicy)
    (P : SplitMetadata → Prop) :
    ∀ (levels : List (Nat × Nat)) (splits : List SplitMetadata)
      (ops : List (List SplitMetadata)),
      (∀ x ∈ splits, P x) → (∀ op ∈ ops, ∀ x ∈ op, P x) →
      (∀ x ∈ (merge_ops_go p levels splits ops).1, P x) ∧
        (∀ op ∈ (merge_ops_go p levels splits ops).2, ∀ x ∈ op, P x) := by
  intro levels
  induction levels with
  | nil => intro splits ops h1 h2; exact ⟨h1, h2⟩
  | cons lv rest ih =>
    intro splits ops h1 h2
    obtain ⟨s, e⟩ := lv
    simp only [merge_ops_go]
    cases h : merge_candidate_from_level p splits s e with
    | none => exact ih splits ops h1 h2
    | some c =>
      obtain ⟨cs, ce⟩ := c
      dsimp only
      refine ih _ _ ?_ ?_
      · intro x hx
        rcases List.mem_append.1 hx with hx | hx
        · exact h1 x (List.mem_of_mem_take hx)
        · exact h1 x (List.mem_of_mem_drop hx)
      · intro op hop x hx
        rcases List.mem_append.1 hop with hop | hop
        · exact h2 op hop x hx
        · have : op = list_slice splits cs ce := by simpa using hop
          subst this
          exact h1 x (List.mem_of_mem_drop (List.mem_of_mem_take hx))

theorem length_filter_bool_split (p : α → Bool) (l : List α) :
    (l.filter (fun x => !p x)).length + (l.filter p).length = l.length := by
  induction l with
  | nil => rfl
  | cons x xs ih =>
    cases h : p x <;> simp only [List.filter_cons, h] <;> simp <;> omega

/-! ## Claim theorems on the merge policy -/

/-- C1: for every input vector of splits, the merge policy's
`operations(splits)` partitions its input: the number of splits in the
input vector before the call equals the sum of the sizes of all returned
merge operations plus the number of splits left in the vector after the
call. -/
theorem operations_partitions_input
    (p : StableMultitenantWithTimestampMergePolicy)
    (splits : List SplitMetadata) :
    splits.length =
      (((operations p splits).2).map List.length).sum +
        ((operations p splits).1).length := by
  unfold operations merge_operations
  split
  · simp
  · rw [remove_matching_items_eq]
    dsimp only
    have hperm :=
      (stable_sort_perm split_sort_le
        (splits.filter (fun x => !is_mature_for_merge p x))).length_eq
    have hcons := merge_ops_go_conserve p
      (build_split_levels p (stable_sort split_sort_le
        (splits.filter (fun x => !is_mature_for_merge p x)))).reverse
      (stable_sort split_sort_le
        (splits.filter (fun x => !is_mature_for_merge p x))) []
    have hfil := length_filter_bool_split (is_mature_for_merge p) splits
    simp only [List.map_nil, List.sum_nil, List.length_append] at hcons ⊢
    omega

/-- C2: with merging enabled, no merge operation returned by `operations`
contains a split whose `num_docs` is at least `split_num_docs_target`, and
the mature splits of the remaining vector are exactly the mature splits of
the input, unchanged and in order. -/
theorem operations_exclude_mature
    (p : StableMultitenantWithTimestampMergePolicy)
    (splits : List SplitMetadata) (h : p.merge_enabled = true) :
    (∀ op ∈ (operations p splits).2, ∀ s ∈ op,
        s.num_docs < p.split_num_docs_target) ∧
      ((operations p splits).1).filter (is_mature_for_merge p) =
        splits.filter (is_mature_for_merge p) := by
  unfold operations merge_operations
  split
  · simp
  · rw [remove_matching_items_eq]
    dsimp only
    have hmemP : ∀ x ∈ stable_sort split_sort_le
        (splits.filter (fun x => !is_mature_for_merge p x)),
        x.num_docs < p.split_num_docs_target := by
      intro x hx
      have hx2 : x ∈ splits.filter (fun x => !is_mature_for_merge p x) :=
        (stable_sort_perm _ _).mem_iff.1 hx
      have hx3 := List.of_mem_filter hx2
      simp [is_mature_for_merge, h] at hx3
      omega
    have hmo := merge_ops_go_mem p
      (fun x => x.num_docs < p.split_num_docs_target)
      (build_split_levels p (stable_sort split_sort_le
        (splits.filter (fun x => !is_mature_for_merge p x)))).reverse
      (stable_sort split_sort_le
        (splits.filter (fun x => !is_mature_for_merge p x))) []
      hmemP (by intro op hop; simp at hop)
    refine ⟨hmo.2, ?_⟩
    rw [List.filter_append]
    have hmat : (splits.filter (is_mature_for_merge p)).filter
        (is_mature_for_merge p) = splits.filter (is_mature_for_merge p) :=
      List.filter_eq_self.2 (fun a ha => List.of_mem_filter ha)
    have hleft : ((merge_ops_go p (build_split_levels p (stable_sort
        split_sort_le (splits.filter (fun x =>
          !is_mature_for_merge p x)))).reverse
        (stable_sort split_sort_le (splits.filter (fun x =>
          !is_mature_for_merge p x))) []).1).filter
        (is_mature_for_merge p) = [] := by
      refine List.filter_eq_nil_iff.2 (fun a ha => ?_)
      have hlt := hmo.1 a ha
      simp [is_mature_for_merge, h]
      omega
    rw [hmat, hleft, List.nil_append]

/-- C3: with the default configuration (`merge_factor = 10`,
`max_merge_factor = 12`), `operations` on exactly 10 same-sized immature
splits returns exactly one merge operation containing all of them; on 9
same-sized splits it returns no operation and all splits remain; and on 13
same-sized splits it returns one merge operation of 12 splits with exactly
one split remaining. -/
theorem operations_boundary_cases :
    operations .default (same_size_splits 10) = ([], [same_size_splits 10]) ∧
      operations .default (same_size_splits 9) = (same_size_splits 9, []) ∧
      operations .default (same_size_splits 13) =
        ((same_size_splits 13).take 1, [(same_size_splits 13).drop 1]) := by
  refine ⟨by decide, by decide, by decide⟩

/-- C10: with the default merge-policy configuration,
`max_num_splits_worst_case(10_000_000) = 45` and
`max_num_splits_ideal_case(1_000_000) = 18`. -/
theorem max_num_splits_default_values :
    max_num_splits_worst_case .default 10000000 = 45 ∧
      max_num_splits_ideal_case .default 1000000 = 18 :=
  ⟨by decide, by decide⟩

/-! ## Claim theorems on the pipeline retry backoff -/

/-- C9 counterexample: at retry count `2^32 - 1` the `as u32` truncation
and the `u32` increment wrap to zero, so the code waits
`min(2^0, 600) = 1` second instead of the claimed
`min(2^(n+1) , 600) = 600` seconds. -/
theorem wait_duration_fails_at_u32_boundary :
    ¬ (wait_duration_before_retry (2 ^ 32 - 1) =
        min (2 ^ ((2 ^ 32 - 1) + 1)) 600) := by
  intro hcontra
  have h1 : wait_duration_before_retry (2 ^ 32 - 1) = 1 := by decide
  have h2 : (600 : Nat) ≤ 2 ^ ((2 ^ 32 - 1) + 1) :=
    le_trans (by norm_num : (600 : Nat) ≤ 2 ^ 10)
      (Nat.pow_le_pow_right (by norm_num) (by norm_num))
  rw [h1, min_eq_right h2] at hcontra
  norm_num at hcontra

/-- C9 (amended): for every retry count `n` with `n + 1 < 2^32` (below the
`u32` truncation boundary), `wait_duration_before_retry n` equals
`min(2^(n+1), 600)` seconds; on that range the function is monotone
non-decreasing; and for every retry count whatsoever it never exceeds 600
seconds. -/
theorem wait_duration_before_retry_formula :
    (∀ n, n + 1 < 2 ^ 32 →
        wait_duration_before_retry n = min (2 ^ (n + 1)) 600) ∧
      (∀ m n, m ≤ n → n + 1 < 2 ^ 32 →
        wait_duration_before_retry m ≤ wait_duration_before_retry n) ∧
      (∀ n, wait_duration_before_retry n ≤ 600) := by
  have hformula : ∀ n, n + 1 < 2 ^ 32 →
      wait_duration_before_retry n = min (2 ^ (n + 1)) 600 := by
    intro n hn
    simp only [wait_duration_before_retry]
    have h1 : n % 2 ^ 32 = n := Nat.mod_eq_of_lt (by omega)
    have h2 : (n + 1) % 2 ^ 32 = n + 1 := Nat.mod_eq_of_lt hn
    rw [h1, h2]
    by_cases h31 : n + 1 ≤ 31
    · rw [min_eq_left h31]
    · rw [min_eq_right (le_of_not_le h31)]
      have ha : min (2 ^ 31) 600 = 600 := min_eq_right (by norm_num)
      have hb : min (2 ^ (n + 1)) 600 = 600 :=
        min_eq_right (le_trans (by norm_num : (600 : Nat) ≤ 2 ^ 31)
          (Nat.pow_le_pow_right (by norm_num) (by omega)))
      rw [ha, hb]
  refine ⟨hformula, ?_, ?_⟩
  · intro m n hmn hn
    rw [hformula m (by omega), hformula n hn]
    exact min_le_min
      (Nat.pow_le_pow_right (by norm_num) (by omega)) le_rfl
  · intro n
    simp only [wait_duration_before_retry]
    exact min_le_right _ _

/-- Witness for the amended C9 at concrete retry counts. -/
theorem wait_duration_before_retry_formula_witness :
    wait_duration_before_retry 3 = min (2 ^ 4) 600 ∧
      wait_duration_before_retry 2 ≤ wait_duration_before_retry 3 ∧
      wait_duration_before_retry 9 ≤ 600 :=
  ⟨wait_duration_before_retry_formula.1 3 (by norm_num),
   wait_duration_before_retry_formula.2.1 2 3 (by norm_num) (by norm_num),
   wait_duration_before_retry_formula.2.2 9⟩

/-- Witness for C2 at a concrete input: the default policy (merging
enabled) on ten same-sized splits. -/
theorem operations_exclude_mature_witness :
    (∀ op ∈ (operations .default (same_size_splits 10)).2, ∀ s ∈ op,
        s.num_docs <
          StableMultitenantWithTimestampMergePolicy.default.split_num_docs_target) ∧
      ((operations .default (same_size_splits 10)).1).filter
          (is_mature_for_merge .default) =
        (same_size_splits 10).filter (is_mature_for_merge .default) :=
  operations_exclude_mature .default (same_size_splits 10) rfl

/-! ## Supporting lemmas on the indexer embedding -/

theorem process_doc_bytes (st : IndexerState)
    (acc : List (Nat × IndexedSplit) × IndexerCounters) (doc : String) :
    ((process_doc st acc doc).2).overall_num_bytes =
      acc.2.overall_num_bytes + doc.utf8ByteSize := by
  obtain ⟨splits, counters⟩ := acc
  simp only [process_doc]
  cases st.prepare_document doc <;> rfl

theorem foldl_process_doc_bytes (st : IndexerState) (docs : List String) :
    ∀ acc : List (Nat × IndexedSplit) × IndexerCounters,
      ((docs.foldl (process_doc st) acc).2).overall_num_bytes =
        acc.2.overall_num_bytes + (docs.map String.utf8ByteSize).sum := by
  induction docs with
  | nil => intro acc; simp
  | cons d rest ih =>
    intro acc
    simp only [List.foldl_cons, List.map_cons, List.sum_cons]
    rw [ih (process_doc st acc d), process_doc_bytes]
    omega

theorem send_to_packager_state (ind : Indexer) :
    (ind.send_to_packager.1).counters.overall_num_bytes =
        ind.counters.overall_num_bytes ∧
      (ind.send_to_packager.1).indexer_state = ind.indexer_state ∧
      (ind.send_to_packager.1).indexing_workbench_opt = none := by
  unfold Indexer.send_to_packager
  cases h : ind.indexing_workbench_opt with
  | none => exact ⟨rfl, rfl, h⟩
  | some wb =>
    dsimp only
    split
    · split
      · exact ⟨rfl, rfl, rfl⟩
      · exact ⟨rfl, rfl, rfl⟩
    · exact ⟨rfl, rfl, rfl⟩

theorem process_batch_live (st : IndexerState) (fid : Nat)
    (b : RawDocBatch) (wb_opt : Option IndexingWorkbench)
    (counters : IndexerCounters)
    (hdead : st.publish_lock.dead = false)
    (hwb : ∀ wb, wb_opt = some wb → wb.publish_lock.dead = false) :
    st.process_batch fid b wb_opt counters = none ∨
      ∃ wb1 c1, st.process_batch fid b wb_opt counters = some (some wb1, c1) ∧
        c1.overall_num_bytes = counters.overall_num_bytes + batch_num_bytes b ∧
        wb1.publish_lock.dead = false := by
  unfold IndexerState.process_batch
  cases wb_opt with
  | none =>
    dsimp only
    rw [if_neg (by simp [hdead])]
    cases hext : SourceCheckpointDelta.extend ⟨none⟩ b.checkpoint_delta with
    | none => exact Or.inl rfl
    | some nd =>
      refine Or.inr ⟨_, _, rfl, ?_, hdead⟩
      exact foldl_process_doc_bytes st b.docs _
  | some wb =>
    dsimp only
    rw [if_neg (by simp [hwb wb rfl])]
    cases hext : SourceCheckpointDelta.extend wb.checkpoint_delta
        b.checkpoint_delta with
    | none => exact Or.inl rfl
    | some nd =>
      refine Or.inr ⟨_, _, rfl, ?_, hwb wb rfl⟩
      exact foldl_process_doc_bytes st b.docs _

theorem handle_batch_live (ind : Indexer) (b : RawDocBatch)
    (hdead : ind.indexer_state.publish_lock.dead = false)
    (hwb : ∀ wb, ind.indexing_workbench_opt = some wb →
      wb.publish_lock.dead = false) :
    ind.handle_batch b = none ∨
      ∃ r, ind.handle_batch b = some r ∧
        r.1.counters.overall_num_bytes =
          ind.counters.overall_num_bytes + batch_num_bytes b ∧
        r.1.indexer_state = ind.indexer_state ∧
        (∀ wb, r.1.indexing_workbench_opt = some wb →
          wb.publish_lock.dead = false) := by
  unfold Indexer.handle_batch
  rcases process_batch_live ind.indexer_state ind.next_workbench_id b
      ind.indexing_workbench_opt ind.counters hdead hwb with
    h | ⟨wb1, c1, h, hb, hl⟩
  · rw [h]; exact Or.inl rfl
  · rw [h]
    dsimp only
    split
    · refine Or.inr ⟨_, rfl, ?_, ?_, ?_⟩
      · rw [(send_to_packager_state _).1]; exact hb
      · exact (send_to_packager_state _).2.1
      · intro wb hwbeq
        rw [(send_to_packager_state _).2.2] at hwbeq
        exact Option.noConfusion hwbeq
    · refine Or.inr ⟨_, rfl, hb, rfl, ?_⟩
      intro wb hwbeq
      exact (Option.some.inj hwbeq) ▸ hl

/-! ## Claim theorems on the indexer -/

/-- C4: for every sequence of ingested `RawDocBatch`es processed under a
live publish lock, the indexer counter `overall_num_bytes` grows by exactly
the sum of the byte lengths of every document string received, whether each
document is valid, a parse error, or missing a field: each document's
length is added unconditionally. -/
theorem overall_num_bytes_counts_every_doc :
    ∀ (batches : List RawDocBatch) (ind : Indexer)
      (r : Indexer × List IndexedSplitBatch × List SourceCheckpointDelta),
      ind.indexer_state.publish_lock.dead = false →
      (∀ wb, ind.indexing_workbench_opt = some wb →
        wb.publish_lock.dead = false) →
      ind.run (batches.map IndexerEvent.batch) = some r →
      r.1.counters.overall_num_bytes =
        ind.counters.overall_num_bytes + (batches.map batch_num_bytes).sum := by
  intro batches
  induction batches with
  | nil =>
    intro ind r _ _ hrun
    simp only [List.map_nil, Indexer.run] at hrun
    obtain rfl : (ind, ([] : List IndexedSplitBatch),
        ([] : List SourceCheckpointDelta)) = r := Option.some.inj hrun
    simp
  | cons b rest ih =>
    intro ind r hdead hwb hrun
    simp only [List.map_cons, Indexer.run, Indexer.step] at hrun
    rcases handle_batch_live ind b hdead hwb with h | ⟨r1, h, hbytes, hstate, hwb1⟩
    · rw [h] at hrun; exact absurd hrun (by simp)
    · rw [h] at hrun
      dsimp only at hrun
      cases hr2 : Indexer.run r1.1 (rest.map IndexerEvent.batch) with
      | none => rw [hr2] at hrun; exact absurd hrun (by simp)
      | some r2 =>
        rw [hr2] at hrun
        have hrec := ih r1.1 r2 (by rw [hstate]; exact hdead) hwb1 hr2
        obtain rfl : (r2.1, r1.2.1 ++ r2.2.1, r1.2.2 ++ r2.2.2) = r :=
          Option.some.inj hrun
        simp only [List.map_cons, List.sum_cons]
        omega

theorem send_to_packager_dead_silent (ind : Indexer)
    (hinv : ∀ wb, ind.indexing_workbench_opt = some wb →
      wb.publish_lock.dead = true ∧ wb.indexed_splits = []) :
    ind.send_to_packager.2.1 = [] ∧ ind.send_to_packager.2.2 = [] := by
  unfold Indexer.send_to_packager
  cases h : ind.indexing_workbench_opt with
  | none => exact ⟨rfl, rfl⟩
  | some wb =>
    obtain ⟨hd, hs⟩ := hinv wb h
    dsimp only
    simp [hs, hd]

theorem handle_batch_dead (ind : Indexer) (b : RawDocBatch)
    (hdead : ind.indexer_state.publish_lock.dead = true)
    (hinv : ∀ wb, ind.indexing_workbench_opt = some wb →
      wb.publish_lock.dead = true ∧ wb.indexed_splits = []) :
    ∃ ind1, ind.handle_batch b = some (ind1, [], []) ∧
      ind1.indexer_state = ind.indexer_state ∧
      (∀ wb, ind1.indexing_workbench_opt = some wb →
        wb.publish_lock.dead = true ∧ wb.indexed_splits = []) := by
  unfold Indexer.handle_batch IndexerState.process_batch
  cases hwbo : ind.indexing_workbench_opt with
  | none =>
    dsimp only
    rw [if_pos (by simp [hdead])]
    dsimp only
    split
    · rcases hsp : Indexer.send_to_packager
          { ind with
            indexing_workbench_opt := some
              { workbench_id := ind.next_workbench_id, indexed_splits := []
                checkpoint_delta := ⟨none⟩
                publish_lock := ind.indexer_state.publish_lock }
            counters := ind.counters
            next_workbench_id := ind.next_workbench_id + 1 } with ⟨i2, e1, e2⟩
      have hsil := send_to_packager_dead_silent
        { ind with
          indexing_workbench_opt := some
            { workbench_id := ind.next_workbench_id, indexed_splits := []
              checkpoint_delta := ⟨none⟩
              publish_lock := ind.indexer_state.publish_lock }
          counters := ind.counters
          next_workbench_id := ind.next_workbench_id + 1 }
        (by
          intro wb hwb2
          obtain rfl := Option.some.inj hwb2
          exact ⟨hdead, rfl⟩)
      have hst := send_to_packager_state
        { ind with
          indexing_workbench_opt := some
            { workbench_id := ind.next_workbench_id, indexed_splits := []
              checkpoint_delta := ⟨none⟩
              publish_lock := ind.indexer_state.publish_lock }
          counters := ind.counters
          next_workbench_id := ind.next_workbench_id + 1 }
      rw [hsp] at hsil hst
      dsimp only at hsil hst
      refine ⟨i2, ?_, hst.2.1, ?_⟩
      · simp only [Option.isNone_none, if_true]
        rw [hsp, hsil.1, hsil.2]
      · intro wb hwb2
        rw [hst.2.2] at hwb2
        exact Option.noConfusion hwb2
    · refine ⟨_, rfl, rfl, ?_⟩
      intro wb hwb2
      obtain rfl := Option.some.inj hwb2
      exact ⟨hdead, rfl⟩
  | some wb0 =>
    obtain ⟨hd0, hs0⟩ := hinv wb0 hwbo
    dsimp only
    rw [if_pos (by simp [hd0])]
    dsimp only
    split
    · rcases hsp : Indexer.send_to_packager
          { ind with
            indexing_workbench_opt := some wb0
            counters := ind.counters
            next_workbench_id := ind.next_workbench_id } with ⟨i2, e1, e2⟩
      have hsil := send_to_packager_dead_silent
        { ind with
          indexing_workbench_opt := some wb0
          counters := ind.counters
          next_workbench_id := ind.next_workbench_id }
        (by
          intro wb hwb2
          obtain rfl := Option.some.inj hwb2
          exact ⟨hd0, hs0⟩)
      have hst := send_to_packager_state
        { ind with
          indexing_workbench_opt := some wb0
          counters := ind.counters
          next_workbench_id := ind.next_workbench_id }
      rw [hsp] at hsil hst
      dsimp only at hsil hst
      refine ⟨i2, ?_, hst.2.1, ?_⟩
      · simp only [Option.isNone_some, Bool.false_eq_true, if_false]
        rw [hsp, hsil.1, hsil.2]
      · intro wb hwb2
        rw [hst.2.2] at hwb2
        exact Option.noConfusion hwb2
    · refine ⟨_, rfl, rfl, ?_⟩
      intro wb hwb2
      obtain rfl := Option.some.inj hwb2
      exact ⟨hd0, hs0⟩

theorem send_dead_step (ind : Indexer)
    (hinv : ∀ wb, ind.indexing_workbench_opt = some wb →
      wb.publish_lock.dead = true ∧ wb.indexed_splits = []) :
    ind.send_to_packager = (ind.send_to_packager.1, [], []) ∧
      ind.send_to_packager.1.indexer_state = ind.indexer_state ∧
      ind.send_to_packager.1.indexing_workbench_opt = none := by
  have h1 := send_to_packager_dead_silent ind hinv
  have h2 := send_to_packager_state ind
  refine ⟨?_, h2.2.1, h2.2.2⟩
  rcases hsp : ind.send_to_packager with ⟨i2, e1, e2⟩
  rw [hsp] at h1
  dsimp only at h1 ⊢
  rw [h1.1, h1.2]

theorem run_map_cons (ind : Indexer) (ev : IndexerEvent)
    (rest : List IndexerEvent) (ind1 : Indexer)
    (hstep : ind.step ev = some (ind1, [], []))
    (hrec : (ind1.run rest).map (fun r => (r.2.1, r.2.2)) = some ([], [])) :
    (ind.run (ev :: rest)).map (fun r => (r.2.1, r.2.2)) = some ([], []) := by
  simp only [Indexer.run, hstep]
  cases hr2 : ind1.run rest with
  | none => rw [hr2] at hrec; exact absurd hrec (by simp)
  | some r2 =>
    rw [hr2] at hrec
    dsimp only
    simp only [Option.map_some, List.nil_append] at hrec ⊢
    exact hrec

/-- C5: if the current workbench's publish lock is dead when a
`RawDocBatch` is handled, the batch is silently dropped: the indexer state
(counters included) is entirely unchanged and the workbench checkpoint
delta is not extended, and no effect is produced.  Moreover, under a dead
active publish lock (and in the absence of a rotation to a live lock),
an entire run of the indexer — batches, commit timeouts, lock
rotations to dead locks and the final flush — emits no split batch and
makes no `publish_splits` call on the metastore. -/
theorem dead_publish_lock_is_silent :
    (∀ (ind : Indexer) (wb : IndexingWorkbench) (b : RawDocBatch),
        ind.indexing_workbench_opt = some wb →
        wb.publish_lock.dead = true →
        ind.counters.num_docs_in_workbench <
          ind.indexer_state.split_num_docs_target →
        ind.handle_batch b = some (ind, [], [])) ∧
      (∀ (events : List IndexerEvent) (ind : Indexer),
        (∀ ev ∈ events, no_live_lock_event ev) →
        ind.indexer_state.publish_lock.dead = true →
        (∀ wb, ind.indexing_workbench_opt = some wb →
          wb.publish_lock.dead = true ∧ wb.indexed_splits = []) →
        (ind.run events).map (fun r => (r.2.1, r.2.2)) = some ([], [])) := by
  constructor
  · intro ind wb b hwbo hdead hlt
    obtain ⟨st, wbo, cts, nid⟩ := ind
    dsimp only at hwbo hlt
    subst hwbo
    unfold Indexer.handle_batch IndexerState.process_batch
    dsimp only
    rw [if_pos (by simp [hdead])]
    dsimp only
    rw [if_neg (by omega)]
    simp only [Option.isNone_some, Bool.false_eq_true, if_false]
  · intro events
    induction events with
    | nil => intro ind _ _ _; rfl
    | cons ev rest ih =>
      intro ind hev hdead hinv
      have hevrest : ∀ e ∈ rest, no_live_lock_event e :=
        fun e he => hev e (List.mem_cons_of_mem _ he)
      cases ev with
      | batch b =>
        obtain ⟨ind1, hstep, hst, hinv1⟩ := handle_batch_dead ind b hdead hinv
        exact run_map_cons ind _ rest ind1 hstep
          (ih ind1 hevrest (by rw [hst]; exact hdead) hinv1)
      | commit_timeout wid =>
        obtain ⟨hsp, hst, hwbnone⟩ := send_dead_step ind hinv
        have hrecsend := ih ind.send_to_packager.1 hevrest
          (by rw [hst]; exact hdead)
          (by intro wb hwb2; rw [hwbnone] at hwb2
              exact Option.noConfusion hwb2)
        have hct : ∃ x, ind.handle_commit_timeout wid = (x, [], []) ∧
            (x.run rest).map (fun r => (r.2.1, r.2.2)) = some ([], []) := by
          unfold Indexer.handle_commit_timeout
          cases hwbo : ind.indexing_workbench_opt with
          | none => exact ⟨ind.send_to_packager.1, hsp, hrecsend⟩
          | some wb =>
            dsimp only
            split
            · exact ⟨ind, rfl, ih ind hevrest hdead hinv⟩
            · exact ⟨ind.send_to_packager.1, hsp, hrecsend⟩
        obtain ⟨x, hx, hxrec⟩ := hct
        exact run_map_cons ind _ rest x (by simp only [Indexer.step, hx])
          hxrec
      | new_publish_lock lock =>
        have hlockdead : lock.dead = true := hev _ (List.mem_cons_self _ _)
        exact run_map_cons ind _ rest (ind.handle_new_publish_lock lock) rfl
          (ih (ind.handle_new_publish_lock lock) hevrest hlockdead
            (by intro wb hwb2; exact Option.noConfusion hwb2))
      | quit =>
        obtain ⟨hsp, hst, hwbnone⟩ := send_dead_step ind hinv
        have hrecsend := ih ind.send_to_packager.1 hevrest
          (by rw [hst]; exact hdead)
          (by intro wb hwb2; rw [hwbnone] at hwb2
              exact Option.noConfusion hwb2)
        exact run_map_cons ind _ rest ind.send_to_packager.1
          (by simp only [Indexer.step]; rw [hsp]) hrecsend

/-- C6 counterexample: one valid document, then a publish-lock rotation,
then one invalid document, then the commit timeout of the new workbench.
The timeout flushes the (split-less) workbench — the metastore receives
exactly one `publish_splits` call and the workbench is gone — yet
`num_docs_in_workbench` ends at 1, not 0: flushing a workbench holding no
splits does not reset the counter, which still carries the valid document
of the workbench the rotation discarded. -/
theorem flush_without_counter_reset :
    ((fresh_indexer test_prep live_lock 10).run c6_events).map
        (fun r => (r.1.counters.num_docs_in_workbench,
                   r.1.indexing_workbench_opt.isNone,
                   r.2.1.length, r.2.2.length)) =
      some (1, true, 0, 1) := by decide

/-- C6 (amended): a flush that emits a split batch (the workbench holds at
least one split) resets `num_docs_in_workbench` to 0; a flush of a
workbench holding no splits leaves the counter unchanged (which is 0
unless a publish-lock rotation discarded counted documents). -/
theorem flush_resets_counter_iff_batch_emitted (ind : Indexer) :
    (ind.send_to_packager.2.1 ≠ [] →
        ind.send_to_packager.1.counters.num_docs_in_workbench = 0) ∧
      (ind.send_to_packager.2.1 = [] →
        ind.send_to_packager.1.counters.num_docs_in_workbench =
          ind.counters.num_docs_in_workbench) := by
  unfold Indexer.send_to_packager
  cases h : ind.indexing_workbench_opt with
  | none => exact ⟨fun hne => absurd rfl hne, fun _ => rfl⟩
  | some wb =>
    dsimp only
    split
    · split
      · exact ⟨fun hne => absurd rfl hne, fun _ => rfl⟩
      · exact ⟨fun hne => absurd rfl hne, fun _ => rfl⟩
    · exact ⟨fun _ => rfl, fun heq => absurd heq (by simp)⟩

/-- Witness for the amended C6: flushing a workbench holding one split
emits a batch and resets the counter to zero. -/
theorem flush_resets_counter_witness :
    one_split_indexer.send_to_packager.2.1 ≠ [] ∧
      one_split_indexer.send_to_packager.1.counters.num_docs_in_workbench =
        0 :=
  ⟨by decide,
   (flush_resets_counter_iff_batch_emitted one_split_indexer).1 (by decide)⟩

/-- C7: handling `NewPublishLock` replaces the active publish lock and
clears the current workbench, but modifies no field of `IndexerCounters`;
in particular `num_docs_in_workbench` is not reset, so valid documents
counted in the discarded workbench still count toward the
`split_num_docs_target` commit trigger of the next workbench (the trigger
in `Indexer::process_batch` compares exactly this carried-over counter). -/
theorem new_publish_lock_frame (ind : Indexer) (lock : PublishLock) :
    (ind.handle_new_publish_lock lock).counters = ind.counters ∧
      (ind.handle_new_publish_lock lock).indexing_workbench_opt = none ∧
      (ind.handle_new_publish_lock lock).indexer_state.publish_lock = lock ∧
      (ind.handle_new_publish_lock lock).indexer_state.prepare_document =
        ind.indexer_state.prepare_document ∧
      (ind.handle_new_publish_lock lock).indexer_state.split_num_docs_target
        = ind.indexer_state.split_num_docs_target ∧
      (ind.handle_new_publish_lock lock).counters.num_docs_in_workbench =
        ind.counters.num_docs_in_workbench :=
  ⟨rfl, rfl, rfl, rfl, rfl, rfl⟩

/-- C8: a `commit_timeout` message flushes the workbench iff its
`workbench_id` equals the current workbench's id; a timeout carrying the
id of a prior workbench leaves the indexer (workbench and all counters)
unchanged and produces no effect. -/
theorem commit_timeout_flushes_iff_id_matches (ind : Indexer)
    (wb : IndexingWorkbench) (msg_id : Nat)
    (h : ind.indexing_workbench_opt = some wb) :
    (wb.workbench_id ≠ msg_id →
        ind.handle_commit_timeout msg_id = (ind, [], [])) ∧
      (wb.workbench_id = msg_id →
        ind.handle_commit_timeout msg_id = ind.send_to_packager) := by
  unfold Indexer.handle_commit_timeout
  rw [h]
  dsimp only
  constructor
  · intro hne; rw [if_pos hne]
  · intro heq; rw [if_neg (fun hne => hne heq)]

/-- Witness for C8: the one-split indexer ignores a stale timeout (id 99)
and flushes on the matching timeout (id 5). -/
theorem commit_timeout_witness :
    one_split_indexer.handle_commit_timeout 99 =
        (one_split_indexer, [], []) ∧
      one_split_indexer.handle_commit_timeout 5 =
        one_split_indexer.send_to_packager :=
  ⟨(commit_timeout_flushes_iff_id_matches one_split_indexer
      one_split_workbench 99 rfl).1 (by decide),
   (commit_timeout_flushes_iff_id_matches one_split_indexer
      one_split_workbench 5 rfl).2 rfl⟩

/-- Witness for C5 at concrete inputs: a batch arriving on a dead-lock
workbench leaves the indexer untouched, and the spec's dead-lock test
run (dead lock installed, one valid document, then quit) emits no split
batch and makes no metastore publish call. -/
theorem dead_publish_lock_witness :
    dead_wb_indexer.handle_batch ⟨["v"], ⟨some (0, 1)⟩⟩ =
        some (dead_wb_indexer, [], []) ∧
      ((fresh_indexer test_prep dead_lock 10).run
          [.batch ⟨["v"], ⟨some (0, 1)⟩⟩, .quit]).map
          (fun r => (r.2.1, r.2.2)) = some ([], []) :=
  ⟨dead_publish_lock_is_silent.1 dead_wb_indexer dead_workbench _ rfl rfl
      (by decide),
   dead_publish_lock_is_silent.2 _ _
      (by
        intro ev hev
        cases hev with
        | head => trivial
        | tail _ h2 =>
          cases h2 with
          | head => trivial
          | tail _ h3 => cases h3)
      rfl
      (fun wb h => Option.noConfusion h)⟩

/-- Witness for C4: a concrete live-lock run over one batch holding one
valid document ("v", 1 byte) and one invalid document ("xy", 2 bytes):
`overall_num_bytes` ends at 3. -/
theorem overall_num_bytes_witness :
    ((fresh_indexer test_prep live_lock 10).run
        ([⟨["v", "xy"], ⟨some (0, 2)⟩⟩].map IndexerEvent.batch)).map
        (fun r => r.1.counters.overall_num_bytes) = some 3 := by
  cases hr : (fresh_indexer test_prep live_lock 10).run
      ([⟨["v", "xy"], ⟨some (0, 2)⟩⟩].map IndexerEvent.batch) with
  | none =>
    have hs : ((fresh_indexer test_prep live_lock 10).run
        ([⟨["v", "xy"], ⟨some (0, 2)⟩⟩].map
          IndexerEvent.batch)).isSome = true := rfl
    rw [hr] at hs
    exact absurd hs (by simp)
  | some r =>
    have hmain := overall_num_bytes_counts_every_doc
      [⟨["v", "xy"], ⟨some (0, 2)⟩⟩] (fresh_indexer test_prep live_lock 10)
      r rfl (fun wb h => Option.noConfusion h) hr
    show some r.1.counters.overall_num_bytes = some 3
    rw [hmain]
    rfl

end Quickwit
